import Mathlib

/-!
Shallow embedding of the F1 championship standings scraper
(`scraper.py`): numeric cleansing, roster lookup, dynamic column
detection, row interpretation with the single-cell sentinel, the
pre-season fallback builder, and the main pipeline's exit contract.

Strings are modelled as Lean `String`s (lists of characters); the
Python string primitives used by the code (`str.strip`, `str.lower`,
`str.split`, `str.isdigit`, `str.isupper`, substring containment
`in`) are modelled character-by-character below for the ASCII range
the scraper operates on.  HTML pages are modelled structurally: a
page optionally holds a table, a table optionally holds a header
section (list of header rows, each a list of `th` texts) and a body
(list of rows, each a list of cells); a body cell carries its flat
text and the texts of its nested sub-elements.  The network fetch is
modelled as `Option Page` (`none` = transport failure), and `main`
returns the pair (exit code, contents written to the output file, if
any).
-/

namespace F1

/-! ### Python string primitives -/

/-- Strip ASCII whitespace from both ends of a character list
(models `str.strip()`). -/
def stripChars (l : List Char) : List Char :=
  ((l.dropWhile Char.isWhitespace).reverse.dropWhile Char.isWhitespace).reverse

/-- Models `str.strip()`. -/
def pyStrip (s : String) : String :=
  String.mk (stripChars s.data)

/-- Models `str.lower()` (ASCII letters, as used by the scraper). -/
def pyLower (s : String) : String :=
  String.mk (s.data.map Char.toLower)

/-- Models `str.isupper()` on ASCII text: at least one cased character
and no lower-case character. -/
def pyIsUpper (s : String) : Bool :=
  s.data.any Char.isAlpha && !s.data.any Char.isLower

/-- Does `needle` occur as a contiguous substring of `hay`?
(models Python's `needle in hay`). -/
def containsSub : List Char → List Char → Bool
  | n, [] => n.isEmpty
  | n, c :: t => n.isPrefixOf (c :: t) || containsSub n t

/-- String-level substring test (models `needle in hay`). -/
def substrB (needle hay : String) : Bool :=
  containsSub needle.data hay.data

/-- Helper for `pySplit`: accumulate the current word (reversed). -/
def pySplitAux (cur : List Char) : List Char → List String
  | [] => if cur.isEmpty then [] else [String.mk cur.reverse]
  | c :: t =>
    if c.isWhitespace then
      if cur.isEmpty then pySplitAux [] t
      else String.mk cur.reverse :: pySplitAux [] t
    else pySplitAux (c :: cur) t

/-- Models `str.split()` with no argument: split on runs of whitespace,
producing no empty tokens. -/
def pySplit (s : String) : List String :=
  pySplitAux [] s.data

/-- Decimal digit characters of a natural number, most significant
first (models Python's `str(n)` for a non-negative `n`). -/
def decimalChars (n : Nat) : List Char :=
  if _h : n < 10 then [Nat.digitChar n]
  else decimalChars (n / 10) ++ [Nat.digitChar (n % 10)]
  decreasing_by exact Nat.div_lt_self (by omega) (by omega)

/-- Models Python's `str(n)` on a non-negative integer. -/
def natToStr (n : Nat) : String :=
  String.mk (decimalChars n)

/-! ### `clean_int` (scraper.py, lines 88–91) -/

/-- Base-10 parse of a digit string, as `int()` performs it
(most-significant digit first). -/
def parseDigits (l : List Char) : Nat :=
  l.foldl (fun a c => a * 10 + (c.toNat - 48)) 0

/-- `clean_int`: strip everything except digits and return the parsed
integer, or 0 when no digit remains (scraper.py lines 88–91). -/
def clean_int (s : String) : Nat :=
  let digits := s.data.filter Char.isDigit
  if digits.isEmpty then 0 else parseDigits digits

/-! ### Driver roster (scraper.py, lines 44–83) -/

/-- One entry of `DRIVER_ROSTER`. -/
structure RosterEntry where
  first : String
  last : String
  number : Nat
  team : String
  car : String
deriving DecidableEq, Repr

/-- The hard-coded 2026 `DRIVER_ROSTER` list, in source order. -/
def DRIVER_ROSTER : List RosterEntry := [
  ⟨"Pierre", "Gasly", 10, "Alpine", "Alpine A526"⟩,
  ⟨"Franco", "Colapinto", 43, "Alpine", "Alpine A526"⟩,
  ⟨"Fernando", "Alonso", 14, "Aston Martin", "Aston Martin AMR26"⟩,
  ⟨"Lance", "Stroll", 18, "Aston Martin", "Aston Martin AMR26"⟩,
  ⟨"Nico", "Hulkenberg", 27, "Audi", "Audi R26"⟩,
  ⟨"Gabriel", "Bortoleto", 5, "Audi", "Audi R26"⟩,
  ⟨"Sergio", "Perez", 11, "Cadillac", "Cadillac"⟩,
  ⟨"Valtteri", "Bottas", 77, "Cadillac", "Cadillac"⟩,
  ⟨"Charles", "Leclerc", 16, "Ferrari", "Ferrari SF-26"⟩,
  ⟨"Lewis", "Hamilton", 44, "Ferrari", "Ferrari SF-26"⟩,
  ⟨"Esteban", "Ocon", 31, "Haas F1 Team", "Haas VF-26"⟩,
  ⟨"Oliver", "Bearman", 87, "Haas F1 Team", "Haas VF-26"⟩,
  ⟨"Lando", "Norris", 4, "McLaren", "McLaren MCL40"⟩,
  ⟨"Oscar", "Piastri", 81, "McLaren", "McLaren MCL40"⟩,
  ⟨"George", "Russell", 63, "Mercedes", "Mercedes W17"⟩,
  ⟨"Kimi", "Antonelli", 12, "Mercedes", "Mercedes W17"⟩,
  ⟨"Liam", "Lawson", 30, "Racing Bulls", "Racing Bulls VCARB 03"⟩,
  ⟨"Arvid", "Lindblad", 6, "Racing Bulls", "Racing Bulls VCARB 03"⟩,
  ⟨"Max", "Verstappen", 1, "Red Bull Racing", "Red Bull RB22"⟩,
  ⟨"Isack", "Hadjar", 22, "Red Bull Racing", "Red Bull RB22"⟩,
  ⟨"Carlos", "Sainz", 55, "Williams", "Williams FW48"⟩,
  ⟨"Alexander", "Albon", 23, "Williams", "Williams FW48"⟩]

/-- The `_ROSTER_BY_NAME` dictionary key of a roster entry:
`f"{d['first'].lower()} {d['last'].lower()}"` (scraper.py lines 81–83). -/
def rosterKey (d : RosterEntry) : String :=
  pyLower d.first ++ " " ++ pyLower d.last

/-- The lookup key built by `lookup_driver`:
`f"{first.strip().lower()} {last.strip().lower()}"` (scraper.py line 96). -/
def driverKey (first last : String) : String :=
  pyLower (pyStrip first) ++ " " ++ pyLower (pyStrip last)

/-- `lookup_driver`: return the roster entry for a driver name
(case-insensitive), `none` when absent (scraper.py lines 94–97).
`_ROSTER_BY_NAME` is a dict comprehension over `DRIVER_ROSTER`; its
keys are pairwise distinct, so the first match below equals the dict
lookup. -/
def lookup_driver (first last : String) : Option RosterEntry :=
  DRIVER_ROSTER.find? (fun d => rosterKey d == driverKey first last)

/-- The `_ROSTER_BY_NAME` keys are pairwise distinct, so the first
`find?` match coincides with the Python dict lookup (whose duplicate
keys, if any, would be won by the last entry). -/
lemma rosterKeys_nodup : (DRIVER_ROSTER.map rosterKey).Nodup := by decide

/-! ### Column detection (scraper.py, lines 100–122) -/

/-- The semantic column names assigned by `detect_columns`. -/
inductive Field where
  | pos | driver | nationality | team | pts | wins | poles
deriving DecidableEq, Repr, Fintype

/-- The column map: semantic column name → 0-based index, a field
being absent when its keyword matched no header cell. -/
structure ColMap where
  pos : Option Nat := none
  driver : Option Nat := none
  nationality : Option Nat := none
  team : Option Nat := none
  pts : Option Nat := none
  wins : Option Nat := none
  poles : Option Nat := none
deriving DecidableEq, Repr

/-- Project a `ColMap` at a semantic field. -/
def ColMap.get : ColMap → Field → Option Nat
  | m, .pos => m.pos
  | m, .driver => m.driver
  | m, .nationality => m.nationality
  | m, .team => m.team
  | m, .pts => m.pts
  | m, .wins => m.wins
  | m, .poles => m.poles

/-- Assign index `i` to field `f` (models `cols[name] = i`). -/
def ColMap.set (m : ColMap) (f : Field) (i : Nat) : ColMap :=
  match f with
  | .pos => { m with pos := some i }
  | .driver => { m with driver := some i }
  | .nationality => { m with nationality := some i }
  | .team => { m with team := some i }
  | .pts => { m with pts := some i }
  | .wins => { m with wins := some i }
  | .poles => { m with poles := some i }

/-- The normalized text of a header cell:
`th.get_text(strip=True).lower()` (scraper.py line 107). -/
def normText (h : String) : String :=
  pyLower (pyStrip h)

/-- The `if`/`elif` keyword chain of `detect_columns` applied to one
normalized header text: the first matching keyword decides the field
(scraper.py lines 108–121). -/
def firstMatch (text : String) : Option Field :=
  if substrB "pos" text then some .pos
  else if substrB "driver" text then some .driver
  else if substrB "nation" text then some .nationality
  else if substrB "team" text || substrB "constructor" text then some .team
  else if substrB "pts" text || substrB "point" text then some .pts
  else if substrB "win" text then some .wins
  else if substrB "pole" text then some .poles
  else none

/-- One loop iteration of `detect_columns` for the cell at index `i`. -/
def applyCell (m : ColMap) (i : Nat) (h : String) : ColMap :=
  match firstMatch (normText h) with
  | some f => m.set f i
  | none => m

/-- The `detect_columns` loop, starting at index `i` with map `m`. -/
def detectFrom (i : Nat) (m : ColMap) : List String → ColMap
  | [] => m
  | h :: t => detectFrom (i + 1) (applyCell m i h) t

/-- `detect_columns`: map semantic column name → 0-based index from the
header cell texts (scraper.py lines 100–122). -/
def detect_columns (headers : List String) : ColMap :=
  detectFrom 0 {} headers

/-- The required column subset `{"pos", "driver", "pts"}`
(scraper.py line 167). -/
def requiredPresent (m : ColMap) : Bool :=
  m.pos.isSome && m.driver.isSome && m.pts.isSome

/-! ### Page model and row interpretation (scraper.py, lines 127–240) -/

/-- One body cell: its flat text (`get_text(separator=" ", strip=True)`)
and the stripped texts of its nested `span`/`p`/`div` sub-elements
(`el.get_text(strip=True)` for each, possibly empty strings). -/
structure Cell where
  text : String
  parts : List String
deriving DecidableEq, Repr

/-- One table as the scraper sees it: an optional `thead` (its `tr`
rows, each a list of `th` texts) and an optional `tbody` (its `tr`
rows, each the `td`/`th` cells found in the row). -/
structure HtmlTable where
  thead : Option (List (List String)) := none
  tbody : Option (List (List Cell)) := none
deriving DecidableEq, Repr

/-- One fetched page: an optional first `<table>`. -/
structure Page where
  table : Option HtmlTable := none
deriving DecidableEq, Repr

/-- The fixed sentinel odds structure
`{"bet365": "0", "sportsbet": "0", "dabble": "0"}`. -/
structure Odds where
  bet365 : String
  sportsbet : String
  dabble : String
deriving DecidableEq, Repr

/-- The sentinel odds value attached to every record. -/
def oddsSentinel : Odds := ⟨"0", "0", "0"⟩

/-- One output record, with the fields of the dicts built at
scraper.py lines 227–237 and 249–262. -/
structure StandingRecord where
  place : Nat
  number : Nat
  team : String
  name : String
  car : String
  poles : Nat
  wins : Nat
  points : Nat
  odds : Odds
deriving DecidableEq, Repr

/-- `cell_text(col_name)`: the text of the cell at the mapped index,
or `""` when the column is unmapped or out of range
(scraper.py lines 184–188). -/
def cellText (idx : Option Nat) (cells : List Cell) : String :=
  match idx with
  | none => ""
  | some i => if i < cells.length then (cells.getD i ⟨"", []⟩).text else ""

/-- Driver-name extraction (scraper.py lines 193–212): take the texts
of the nested sub-elements, keep the non-empty ones, drop 3-letter
all-caps abbreviations; with at least two fragments the first two are
first/last name, otherwise split the flat cell text on whitespace. -/
def extractName (cols : ColMap) (cells : List Cell) : String × String :=
  let idx := cols.driver.getD 0
  if idx < cells.length then
    let cell := cells.getD idx ⟨"", []⟩
    let nameParts :=
      (cell.parts.filter (fun p => !(p == ""))).filter
        (fun p => !(pyIsUpper p && p.length == 3))
    if 2 ≤ nameParts.length then
      (nameParts.getD 0 "", nameParts.getD 1 "")
    else
      let parts := pySplit cell.text
      (parts.getD 0 "",
       if 1 < parts.length then String.intercalate " " parts.tail else "")
  else
    ("", "")

/-- Interpretation of one multi-cell table row (the body of the loop at
scraper.py lines 190–237): `none` exactly when the extracted name
resolves to no roster entry (the row is skipped), otherwise the
merged record. -/
def interpretRow (cols : ColMap) (cells : List Cell) : Option StandingRecord :=
  let place := clean_int (cellText cols.pos cells)
  let fl := extractName cols cells
  let fullName := pyStrip (fl.1 ++ " " ++ fl.2)
  match lookup_driver fl.1 fl.2 with
  | none => none
  | some d =>
    some { place := place
           number := d.number
           team := d.team
           name := fullName
           car := d.car
           poles := clean_int (cellText cols.poles cells)
           wins := clean_int (cellText cols.wins cells)
           points := clean_int (cellText cols.pts cells)
           odds := oddsSentinel }

/-- The row loop of `fetch_standings` (scraper.py lines 173–237):
`acc` is the `standings` list accumulated so far; a cell-less row is
skipped, a single-cell row aborts the loop returning the empty list
(discarding `acc`), an unmatched row is dropped, and any other row
appends its record. -/
def interpretLoop (cols : ColMap) (acc : List StandingRecord) :
    List (List Cell) → List StandingRecord
  | [] => acc
  | cells :: rest =>
    if cells.isEmpty then interpretLoop cols acc rest
    else if cells.length = 1 then []
    else
      match interpretRow cols cells with
      | none => interpretLoop cols acc rest
      | some r => interpretLoop cols (acc ++ [r]) rest

/-- `fetch_standings` (scraper.py lines 127–240) on the modelled fetch
outcome: `none` models every fatal path (transport failure, missing
table/thead/tbody/header row, missing required columns), `some l` the
parsed records (possibly `[]`). -/
def fetch_standings (resp : Option Page) : Option (List StandingRecord) :=
  match resp with
  | none => none
  | some pg =>
    match pg.table with
    | none => none
    | some t =>
      match t.thead, t.tbody with
      | some trs, some body =>
        match trs.head? with
        | none => none
        | some headerRow =>
          let cols := detect_columns headerRow
          if requiredPresent cols then some (interpretLoop cols [] body)
          else none
      | _, _ => none

/-! ### Fallback builder and main (scraper.py, lines 243–287) -/

/-- The list comprehension of `build_preseason_standings`, over an
arbitrary catalog (the source applies it to `DRIVER_ROSTER`). -/
def build_preseason_from (catalog : List RosterEntry) : List StandingRecord :=
  catalog.enum.map (fun p =>
    { place := p.1 + 1
      number := p.2.number
      team := p.2.team
      name := p.2.first ++ " " ++ p.2.last
      car := p.2.car
      poles := 0
      wins := 0
      points := 0
      odds := oddsSentinel })

/-- `build_preseason_standings` (scraper.py lines 243–262). -/
def build_preseason_standings : List StandingRecord :=
  build_preseason_from DRIVER_ROSTER

/-- `main` (scraper.py lines 275–287), as (exit code, written output):
`fetch_standings() is None` → exit 1, nothing written; otherwise the
standings (replaced by the fallback when empty) are written and the
process exits 0. -/
def main (resp : Option Page) : Nat × Option (List StandingRecord) :=
  match fetch_standings resp with
  | none => (1, none)
  | some s =>
    (0, some (if s.length = 0 then build_preseason_standings else s))

/-! ### Lemmas on numeric cleansing -/

/-- The digit-parsing fold computes the base-10 positional value. -/
lemma foldl_parse (l : List Char) (a : Nat) :
    l.foldl (fun a c => a * 10 + (c.toNat - 48)) a =
      a * 10 ^ l.length +
        Nat.ofDigits 10 ((l.map fun c => c.toNat - 48).reverse) := by
  induction l generalizing a with
  | nil => simp
  | cons c t ih =>
    simp only [List.foldl_cons, List.map_cons, List.reverse_cons, ih,
      Nat.ofDigits_append, List.length_reverse, List.length_map,
      Nat.ofDigits_singleton, List.length_cons]
    ring

/-- `parseDigits` computes the base-10 value of the digit list. -/
lemma parseDigits_eq_ofDigits (l : List Char) :
    parseDigits l =
      Nat.ofDigits 10 ((l.map fun c => c.toNat - 48).reverse) := by
  simpa using foldl_parse l 0

/-- For digits below 10, `Nat.digitChar` produces a decimal digit
character whose value is the digit. -/
lemma digitChar_spec : ∀ m, m < 10 →
    (Nat.digitChar m).isDigit = true ∧ (Nat.digitChar m).toNat - 48 = m := by
  decide

/-- `decimalChars` produces a non-empty all-digit list that parses
back to the number. -/
lemma decimalChars_spec (n : Nat) :
    decimalChars n ≠ [] ∧ (∀ c ∈ decimalChars n, c.isDigit = true) ∧
      parseDigits (decimalChars n) = n := by
  induction n using Nat.strong_induction_on with
  | _ n ih =>
    by_cases h : n < 10
    · rw [decimalChars, dif_pos h]
      refine ⟨by simp, ?_, ?_⟩
      · intro c hc
        simp only [List.mem_singleton] at hc
        exact hc ▸ (digitChar_spec n h).1
      · simp [parseDigits, (digitChar_spec n h).2]
    · rw [decimalChars, dif_neg h]
      have hd : n / 10 < n := Nat.div_lt_self (by omega) (by omega)
      obtain ⟨-, hall, hparse⟩ := ih (n / 10) hd
      have hm : n % 10 < 10 := Nat.mod_lt _ (by omega)
      refine ⟨by simp, ?_, ?_⟩
      · intro c hc
        rcases List.mem_append.mp hc with hc | hc
        · exact hall c hc
        · simp only [List.mem_singleton] at hc
          exact hc ▸ (digitChar_spec _ hm).1
      · show List.foldl _ 0 _ = n
        rw [List.foldl_append]
        show (parseDigits (decimalChars (n / 10))) * 10 +
          ((Nat.digitChar (n % 10)).toNat - 48) = n
        rw [hparse, (digitChar_spec _ hm).2]
        omega

/-- `clean_int` inverts the decimal rendering of a natural number. -/
lemma clean_int_natToStr (n : Nat) : clean_int (natToStr n) = n := by
  obtain ⟨hne, hall, hparse⟩ := decimalChars_spec n
  have hdata : (natToStr n).data = decimalChars n := rfl
  have hfilter : (decimalChars n).filter Char.isDigit = decimalChars n :=
    List.filter_eq_self.mpr hall
  rw [clean_int, hdata, hfilter]
  simp only [List.isEmpty_iff]
  rw [if_neg hne]
  exact hparse

/-! ### C1 and C8: numeric cleansing -/

/-- C1: for every string `text`, `clean_int text` is the non-negative
integer obtained by stripping every non-digit character and parsing
the remaining digit string in base 10 (`Nat.ofDigits 10` of the digit
values, least-significant first), which is 0 when no digit remains;
being `Nat`-valued and total, it never fails and is never negative or
fractional. -/
theorem clean_int_strips_and_parses (s : String) :
    clean_int s =
      Nat.ofDigits 10
        (((s.data.filter Char.isDigit).map fun c => c.toNat - 48).reverse) := by
  rw [clean_int]
  by_cases h : (s.data.filter Char.isDigit).isEmpty
  · simp only [h, if_pos]
    rw [List.isEmpty_iff] at h
    simp [h]
  · simp only [h, Bool.false_eq_true, if_false]
    exact parseDigits_eq_ofDigits _

/-- C8: `clean_int` is idempotent through its own rendered output:
`clean_int (str (clean_int x)) = clean_int x` for every string `x`;
moreover `clean_int "" = 0` and `clean_int "P12." = 12`. -/
theorem clean_int_idempotent (s : String) :
    clean_int (natToStr (clean_int s)) = clean_int s ∧
      clean_int "" = 0 ∧ clean_int "P12." = 12 :=
  ⟨clean_int_natToStr _, by decide, by decide⟩

/-! ### C4: fallback builder -/

/-- Placeholder roster entry for out-of-range `getD` access. -/
def dummyEntry : RosterEntry := ⟨"", "", 0, "", ""⟩

/-- Placeholder record for out-of-range `getD` access. -/
def dummyRecord : StandingRecord := ⟨0, 0, "", "", "", 0, 0, 0, oddsSentinel⟩

/-- C4: for every catalog, the fallback builder yields exactly one
record per catalog entry, in catalog order, where the record at
0-based index `i` has `place = i + 1` (1-based), zero points / wins /
poles, display name the entry's own first and last name joined by a
single space, number / team / car from that same entry, and the fixed
sentinel odds `{bet365 := "0", sportsbet := "0", dabble := "0"}`. -/
theorem build_preseason_from_spec (catalog : List RosterEntry) :
    (build_preseason_from catalog).length = catalog.length ∧
      ∀ i, i < catalog.length →
        (build_preseason_from catalog).getD i dummyRecord =
          { place := i + 1
            number := (catalog.getD i dummyEntry).number
            team := (catalog.getD i dummyEntry).team
            name := (catalog.getD i dummyEntry).first ++ " " ++
              (catalog.getD i dummyEntry).last
            car := (catalog.getD i dummyEntry).car
            poles := 0
            wins := 0
            points := 0
            odds := ⟨"0", "0", "0"⟩ } := by
  constructor
  · simp [build_preseason_from]
  · intro i hi
    have h1 : (build_preseason_from catalog)[i]? =
        some ((build_preseason_from catalog).getD i dummyRecord) := by
      rw [List.getD_eq_getElem?_getD, List.getElem?_eq_getElem]
      · rfl
      · simpa [build_preseason_from] using hi
    have h2 : catalog[i]? = some (catalog.getD i dummyEntry) := by
      rw [List.getD_eq_getElem?_getD, List.getElem?_eq_getElem hi]
      rfl
    have h3 : (build_preseason_from catalog)[i]? =
        some { place := i + 1
               number := (catalog.getD i dummyEntry).number
               team := (catalog.getD i dummyEntry).team
               name := (catalog.getD i dummyEntry).first ++ " " ++
                 (catalog.getD i dummyEntry).last
               car := (catalog.getD i dummyEntry).car
               poles := 0
               wins := 0
               points := 0
               odds := (⟨"0", "0", "0"⟩ : Odds) } := by
      simp only [build_preseason_from, List.getElem?_map, List.enum,
        List.getElem?_enumFrom, h2, Option.map_some, Nat.zero_add]
      rfl
    rw [h1] at h3
    exact Option.some.inj h3

/-- Witness for C4: the fallback on the concrete roster has 22
records and its first record is Gasly with place 1 and zeros. -/
theorem build_preseason_from_spec_witness :
    build_preseason_standings.length = DRIVER_ROSTER.length ∧
      build_preseason_standings.getD 0 dummyRecord =
        { place := 1, number := 10, team := "Alpine", name := "Pierre Gasly",
          car := "Alpine A526", poles := 0, wins := 0, points := 0,
          odds := ⟨"0", "0", "0"⟩ } := by
  obtain ⟨h1, h2⟩ := build_preseason_from_spec DRIVER_ROSTER
  exact ⟨h1, by rw [build_preseason_standings, h2 0 (by decide)]; decide⟩

/-! ### Character-level lemmas for case normalization -/

/-- `Char.ofNat` on a scalar value below the surrogate range recovers
the value. -/
lemma toNat_ofNat_of_lt {n : Nat} (h : n < 55296) : (Char.ofNat n).toNat = n := by
  rw [Char.ofNat, dif_pos (Or.inl h)]
  rfl

/-- `Char.toNat` is injective. -/
lemma char_toNat_inj {c d : Char} (h : c.toNat = d.toNat) : c = d := by
  have hc := (Char.ofNat_toNat c).symm
  rw [h, Char.ofNat_toNat] at hc
  exact hc

/-- The scalar value of `Char.toLower`. -/
lemma toLower_toNat (c : Char) :
    (Char.toLower c).toNat =
      if 65 ≤ c.toNat ∧ c.toNat ≤ 90 then c.toNat + 32 else c.toNat := by
  rw [Char.toLower]
  by_cases h : 65 ≤ c.toNat ∧ c.toNat ≤ 90
  · rw [if_pos h, if_pos h, toNat_ofNat_of_lt (by omega)]
  · rw [if_neg h, if_neg h]

/-- Lower-casing is idempotent. -/
lemma toLower_idem (c : Char) :
    Char.toLower (Char.toLower c) = Char.toLower c := by
  apply char_toNat_inj
  rw [toLower_toNat (Char.toLower c), if_neg]
  rw [toLower_toNat c]
  split <;> omega

/-- Character equality through the scalar value. -/
lemma char_eq_iff (c d : Char) : c = d ↔ c.toNat = d.toNat :=
  ⟨fun h => by rw [h], char_toNat_inj⟩

/-- Whitespace membership as a statement about the scalar value. -/
lemma isWhitespace_iff_toNat (c : Char) :
    c.isWhitespace = true ↔
      (c.toNat = 32 ∨ c.toNat = 9 ∨ c.toNat = 13 ∨ c.toNat = 10) := by
  have h32 : (' ' : Char).toNat = 32 := rfl
  have h9 : ('\t' : Char).toNat = 9 := rfl
  have h13 : ('\r' : Char).toNat = 13 := rfl
  have h10 : ('\n' : Char).toNat = 10 := rfl
  rw [Char.isWhitespace]
  simp only [Bool.or_eq_true, decide_eq_true_eq, char_eq_iff, h32, h9, h13, h10]
  tauto

/-- Lower-casing does not change whether a character is whitespace. -/
lemma isWhitespace_toLower (c : Char) :
    (Char.toLower c).isWhitespace = c.isWhitespace := by
  rw [Bool.eq_iff_iff, isWhitespace_iff_toNat, isWhitespace_iff_toNat,
    toLower_toNat]
  split <;> omega

/-! ### List-level lemmas for whitespace stripping -/

/-- Dropping a satisfied prefix twice equals dropping it once. -/
lemma dropWhile_dropWhile (p : Char → Bool) (l : List Char) :
    (l.dropWhile p).dropWhile p = l.dropWhile p := by
  induction l with
  | nil => rfl
  | cons a t ih =>
    by_cases h : p a
    · simp [List.dropWhile_cons, h, ih]
    · simp [List.dropWhile_cons, h]

/-- The head surviving `dropWhile` fails the predicate. -/
lemma dropWhile_cons_false {p : Char → Bool} (l : List Char) :
    ∀ (c : Char) (t : List Char), l.dropWhile p = c :: t → p c = false := by
  induction l with
  | nil => intro c t h; simp at h
  | cons a l ih =>
    intro c t h
    by_cases ha : p a
    · rw [List.dropWhile_cons, if_pos ha] at h
      exact ih c t h
    · rw [List.dropWhile_cons, if_neg ha] at h
      injection h with h1 _
      rw [← h1]
      cases hpa : p a with
      | false => rfl
      | true => exact absurd hpa ha

/-- A list whose head fails the predicate is unchanged by `dropWhile`. -/
lemma dropWhile_eq_self_of_head {p : Char → Bool} {l : List Char} {c : Char}
    (hc : l.head? = some c) (hp : p c = false) : l.dropWhile p = l := by
  cases l with
  | nil => rfl
  | cons a t =>
    simp only [List.head?_cons, Option.some.injEq] at hc
    rw [List.dropWhile_cons, if_neg]
    rw [hc, hp]
    simp

/-- When `dropWhile` leaves something, the last element is unchanged. -/
lemma getLast?_dropWhile {p : Char → Bool} (l : List Char) :
    l.dropWhile p ≠ [] → (l.dropWhile p).getLast? = l.getLast? := by
  induction l with
  | nil => intro h; simp at h
  | cons a t ih =>
    intro h
    by_cases ha : p a
    · rw [List.dropWhile_cons, if_pos ha] at h ⊢
      have ht : t ≠ [] := by
        intro he
        rw [he] at h
        exact h rfl
      rw [ih h]
      cases t with
      | nil => exact absurd rfl ht
      | cons b t2 => rw [List.getLast?_cons_cons]
    · rw [List.dropWhile_cons, if_neg ha]

/-- The stripped list has no leading whitespace. -/
lemma stripChars_dropWhile (l : List Char) :
    (stripChars l).dropWhile Char.isWhitespace = stripChars l := by
  by_cases hb : (l.dropWhile Char.isWhitespace).reverse.dropWhile
      Char.isWhitespace = []
  · rw [stripChars, hb]
    rfl
  · have hane : l.dropWhile Char.isWhitespace ≠ [] := by
      intro he
      rw [he] at hb
      simp at hb
    obtain ⟨c0, t0, he0⟩ := List.exists_cons_of_ne_nil hane
    have hc0 : Char.isWhitespace c0 = false := dropWhile_cons_false l c0 t0 he0
    have hlast : ((l.dropWhile Char.isWhitespace).reverse.dropWhile
        Char.isWhitespace).getLast? = some c0 := by
      rw [getLast?_dropWhile _ hb, List.getLast?_reverse, he0, List.head?_cons]
    have hhead : ((l.dropWhile Char.isWhitespace).reverse.dropWhile
        Char.isWhitespace).reverse.head? = some c0 := by
      rw [List.head?_reverse]
      exact hlast
    rw [stripChars]
    exact dropWhile_eq_self_of_head hhead hc0

/-- Stripping is idempotent. -/
lemma stripChars_idem (l : List Char) :
    stripChars (stripChars l) = stripChars l := by
  conv_lhs => rw [stripChars]
  rw [stripChars_dropWhile]
  have hrev : (stripChars l).reverse =
      (l.dropWhile Char.isWhitespace).reverse.dropWhile Char.isWhitespace := by
    rw [stripChars, List.reverse_reverse]
  rw [hrev, dropWhile_dropWhile, ← hrev, List.reverse_reverse]

/-- Stripping commutes with lower-casing. -/
lemma stripChars_map_toLower (l : List Char) :
    stripChars (l.map Char.toLower) = (stripChars l).map Char.toLower := by
  have hp : (Char.isWhitespace ∘ Char.toLower) = Char.isWhitespace :=
    funext isWhitespace_toLower
  rw [stripChars, List.dropWhile_map, hp, ← List.map_reverse,
    List.dropWhile_map, hp, ← List.map_reverse, stripChars]

/-- Trim-then-lower normalization is idempotent. -/
lemma norm_idem (s : String) :
    pyLower (pyStrip (pyLower (pyStrip s))) = pyLower (pyStrip s) := by
  have hf : (Char.toLower ∘ Char.toLower) = Char.toLower :=
    funext fun c => toLower_idem c
  show String.mk ((stripChars ((stripChars s.data).map Char.toLower)).map
      Char.toLower) = String.mk ((stripChars s.data).map Char.toLower)
  rw [stripChars_map_toLower, stripChars_idem, List.map_map, hf]

/-! ### C6: name resolution normalization -/

/-- C6: name resolution is insensitive to letter case and surrounding
whitespace: resolving `(first, last)` equals resolving their trimmed,
lower-cased forms (the lookup key being the exact normalized
`"first last"` string); in particular `(" MAX ", " verstappen ")`
resolves to the same catalog entry as `("Max", "Verstappen")`, namely
Verstappen's roster entry. -/
theorem lookup_driver_normalized (f l : String) :
    lookup_driver f l =
        lookup_driver (pyLower (pyStrip f)) (pyLower (pyStrip l)) ∧
      lookup_driver " MAX " " verstappen " =
        lookup_driver "Max" "Verstappen" ∧
      lookup_driver "Max" "Verstappen" =
        some ⟨"Max", "Verstappen", 1, "Red Bull Racing", "Red Bull RB22"⟩ := by
  refine ⟨?_, by decide, by decide⟩
  unfold lookup_driver driverKey
  rw [norm_idem, norm_idem]

/-! ### Lemmas on row interpretation and the pipeline -/

/-- A single-cell row anywhere in the body forces the empty result,
whatever was accumulated before it. -/
lemma interpretLoop_nil_of_mem_single (cols : ColMap)
    (acc : List StandingRecord) (rows : List (List Cell))
    (h : ∃ r ∈ rows, r.length = 1) : interpretLoop cols acc rows = [] := by
  induction rows generalizing acc with
  | nil =>
    obtain ⟨r, hr, -⟩ := h
    simp at hr
  | cons cells rest ih =>
    obtain ⟨r, hr, hlen⟩ := h
    rw [interpretLoop]
    by_cases he : cells.isEmpty
    · rw [if_pos he]
      apply ih
      rcases List.mem_cons.mp hr with h | h
      · subst h
        rw [List.isEmpty_iff] at he
        rw [he] at hlen
        simp at hlen
      · exact ⟨r, h, hlen⟩
    · rw [if_neg he]
      by_cases h1 : cells.length = 1
      · rw [if_pos h1]
      · rw [if_neg h1]
        have hmem : ∃ r ∈ rest, r.length = 1 := by
          rcases List.mem_cons.mp hr with h | h
          · exact absurd (h ▸ hlen) h1
          · exact ⟨r, h, hlen⟩
        cases hrow : interpretRow cols cells with
        | none => exact ih _ hmem
        | some r0 => exact ih _ hmem

/-- `fetch_standings` on a page that reaches column detection. -/
lemma fetch_standings_parsed {t : HtmlTable} {trs : List (List String)}
    {hrow : List String} {body : List (List Cell)}
    (h1 : t.thead = some trs) (h2 : t.tbody = some body)
    (h3 : trs.head? = some hrow) :
    fetch_standings (some ⟨some t⟩) =
      if requiredPresent (detect_columns hrow) then
        some (interpretLoop (detect_columns hrow) [] body)
      else none := by
  simp only [fetch_standings, h1, h2, h3]

/-- Every record produced by the row loop was in the accumulator or
produced by `interpretRow` on some row. -/
lemma mem_interpretLoop {cols : ColMap} {r : StandingRecord} :
    ∀ (rows : List (List Cell)) (acc : List StandingRecord),
      r ∈ interpretLoop cols acc rows →
      r ∈ acc ∨ ∃ cells ∈ rows, interpretRow cols cells = some r := by
  intro rows
  induction rows with
  | nil =>
    intro acc h
    rw [interpretLoop] at h
    exact Or.inl h
  | cons cells rest ih =>
    intro acc h
    rw [interpretLoop] at h
    by_cases he : cells.isEmpty
    · rw [if_pos he] at h
      rcases ih acc h with h | ⟨cs, hcs, hrow⟩
      · exact Or.inl h
      · exact Or.inr ⟨cs, List.mem_cons_of_mem _ hcs, hrow⟩
    · rw [if_neg he] at h
      by_cases h1 : cells.length = 1
      · rw [if_pos h1] at h
        simp at h
      · rw [if_neg h1] at h
        cases hrow : interpretRow cols cells with
        | none =>
          rw [hrow] at h
          rcases ih acc h with h | ⟨cs, hcs, hcs2⟩
          · exact Or.inl h
          · exact Or.inr ⟨cs, List.mem_cons_of_mem _ hcs, hcs2⟩
        | some r0 =>
          rw [hrow] at h
          rcases ih _ h with h | ⟨cs, hcs, hcs2⟩
          · rcases List.mem_append.mp h with h | h
            · exact Or.inl h
            · simp only [List.mem_singleton] at h
              exact Or.inr ⟨cells, List.mem_cons_self _ _, h ▸ hrow⟩
          · exact Or.inr ⟨cs, List.mem_cons_of_mem _ hcs, hcs2⟩

/-- A record emitted by `interpretRow` takes its number, team and car
from the single roster entry resolved for the row's extracted name. -/
lemma interpretRow_fields {cols : ColMap} {cells : List Cell}
    {r : StandingRecord} (h : interpretRow cols cells = some r) :
    ∃ d ∈ DRIVER_ROSTER,
      lookup_driver (extractName cols cells).1 (extractName cols cells).2
          = some d ∧
        r.number = d.number ∧ r.team = d.team ∧ r.car = d.car := by
  rw [interpretRow] at h
  cases hl : lookup_driver (extractName cols cells).1
      (extractName cols cells).2 with
  | none =>
    rw [hl] at h
    exact absurd h (by simp)
  | some d =>
    rw [hl] at h
    refine ⟨d, List.mem_of_find?_eq_some hl, rfl, ?_⟩
    obtain rfl := Option.some.inj h
    exact ⟨rfl, rfl, rfl⟩

/-! ### C3: single-cell sentinel row -/

/-- C3: a table body containing a row with exactly one cell makes row
interpretation stop with the empty overall result — no record from
that row or any other row survives — and the caller then takes the
fallback path exactly as for a page with zero interpretable rows. -/
theorem single_cell_row_empties_page :
    (∀ (cols : ColMap) (acc : List StandingRecord)
        (rows : List (List Cell)),
      (∃ r ∈ rows, r.length = 1) → interpretLoop cols acc rows = []) ∧
      ∀ (t : HtmlTable) (trs : List (List String)) (hrow : List String)
        (body : List (List Cell)),
        t.thead = some trs → t.tbody = some body → trs.head? = some hrow →
        requiredPresent (detect_columns hrow) = true →
        (∃ r ∈ body, r.length = 1) →
        main (some ⟨some t⟩) = (0, some build_preseason_standings) := by
  refine ⟨interpretLoop_nil_of_mem_single, ?_⟩
  intro t trs hrow body h1 h2 h3 hreq hmem
  have hf : fetch_standings (some ⟨some t⟩) = some [] := by
    rw [fetch_standings_parsed h1 h2 h3, if_pos (by rw [hreq]),
      interpretLoop_nil_of_mem_single _ _ _ hmem]
  simp [main, hf]

/-- Witness for C3 on a concrete page: a body holding one single-cell
row yields the empty parse and the fallback output. -/
theorem single_cell_row_empties_page_witness :
    interpretLoop (detect_columns ["Pos", "Driver", "Pts"]) []
        [[Cell.mk "No results" []]] = [] ∧
      main (some ⟨some ⟨some [["Pos", "Driver", "Pts"]],
          some [[Cell.mk "No results" []]]⟩⟩) =
        (0, some build_preseason_standings) :=
  ⟨single_cell_row_empties_page.1 _ _ _ ⟨[Cell.mk "No results" []],
      by simp, rfl⟩,
    single_cell_row_empties_page.2 _ _ _ _ rfl rfl rfl (by decide)
      ⟨[Cell.mk "No results" []], by simp, rfl⟩⟩

/-! ### C10: sentinel row after interpreted rows -/

/-- A concrete well-formed standings row (Verstappen, 25 points) used
by several concrete instantiations below. -/
def rowVer : List Cell :=
  [⟨"1", []⟩, ⟨"Max Verstappen", ["Max", "Verstappen", "VER"]⟩, ⟨"25", []⟩]

/-- The record the row interpreter produces from `rowVer` under the
`Pos`/`Driver`/`Pts` header. -/
def recVer : StandingRecord :=
  ⟨1, 1, "Red Bull Racing", "Max Verstappen", "Red Bull RB22", 0, 0, 25,
    oddsSentinel⟩

/-- C10: when a single-cell row occurs after rows that were already
interpreted into records, those earlier records are discarded too:
the interpreter returns the empty result for the whole page (not the
accumulated prefix), and `main` writes the fallback dataset in their
place. -/
theorem single_cell_discards_earlier_records
    (t : HtmlTable) (trs : List (List String)) (hrow : List String)
    (pre post : List (List Cell)) (srow : List Cell)
    (h1 : t.thead = some trs) (h2 : t.tbody = some (pre ++ srow :: post))
    (h3 : trs.head? = some hrow)
    (hreq : requiredPresent (detect_columns hrow) = true)
    (hs : srow.length = 1)
    (_hpre : interpretLoop (detect_columns hrow) [] pre ≠ []) :
    fetch_standings (some ⟨some t⟩) = some [] ∧
      main (some ⟨some t⟩) = (0, some build_preseason_standings) := by
  have hf : fetch_standings (some ⟨some t⟩) = some [] := by
    rw [fetch_standings_parsed h1 h2 h3, if_pos (by rw [hreq]),
      interpretLoop_nil_of_mem_single _ _ _
        ⟨srow, List.mem_append_right _ (List.mem_cons_self _ _), hs⟩]
  exact ⟨hf, by simp [main, hf]⟩

/-- Witness for C10: a body whose first row parses into the Verstappen
record followed by a single-cell row yields the empty parse (the
record is discarded) and the fallback output. -/
theorem single_cell_discards_earlier_records_witness :
    interpretLoop (detect_columns ["Pos", "Driver", "Pts"]) [] [rowVer] =
        [recVer] ∧
      fetch_standings (some ⟨some ⟨some [["Pos", "Driver", "Pts"]],
          some ([rowVer] ++ [Cell.mk "No results" []] :: [])⟩⟩) = some [] ∧
      main (some ⟨some ⟨some [["Pos", "Driver", "Pts"]],
          some ([rowVer] ++ [Cell.mk "No results" []] :: [])⟩⟩) =
        (0, some build_preseason_standings) := by
  refine ⟨by decide, ?_⟩
  exact single_cell_discards_earlier_records _ _ _ [rowVer] []
    [Cell.mk "No results" []] rfl rfl rfl (by decide) rfl (by decide)

/-! ### C7: unmatched name drops only that row -/

/-- C7: a multi-cell row whose extracted name resolves to no catalog
entry contributes zero records and is skipped without aborting:
interpreting the body starting at that row equals interpreting the
remaining rows with the same accumulator. -/
theorem unmatched_row_is_skipped
    (cols : ColMap) (acc : List StandingRecord) (cells : List Cell)
    (rest : List (List Cell))
    (hne : cells ≠ []) (hlen : cells.length ≠ 1)
    (hl : lookup_driver (extractName cols cells).1
      (extractName cols cells).2 = none) :
    interpretLoop cols acc (cells :: rest) = interpretLoop cols acc rest := by
  have hrow : interpretRow cols cells = none := by
    simp only [interpretRow, hl]
  rw [interpretLoop, if_neg (by simpa [List.isEmpty_iff] using hne),
    if_neg hlen, hrow]

/-- Witness for C7: a row naming an unknown driver (John Doe) between
real rows is dropped while interpretation continues. -/
theorem unmatched_row_is_skipped_witness :
    ([⟨"2", []⟩, ⟨"John Doe", ["John", "Doe"]⟩, ⟨"18", []⟩] : List Cell) ≠ [] ∧
      interpretLoop (detect_columns ["Pos", "Driver", "Pts"]) []
          ([⟨"2", []⟩, ⟨"John Doe", ["John", "Doe"]⟩, ⟨"18", []⟩] :: [rowVer])
        = interpretLoop (detect_columns ["Pos", "Driver", "Pts"]) []
          [rowVer] := by
  refine ⟨by decide, ?_⟩
  exact unmatched_row_is_skipped _ _ _ _ (by decide) (by decide) (by decide)

/-! ### C9: no partial merge -/

/-- C9: every emitted record — from the live row interpreter or from
the fallback builder — takes its number, team and car all from one
single catalog entry: for live records the entry the resolver returns
for that row's extracted name, for fallback records the entry the
record was built from. -/
theorem record_fields_from_one_entry :
    (∀ (cols : ColMap) (rows : List (List Cell)) (r : StandingRecord),
        r ∈ interpretLoop cols [] rows →
        ∃ cells ∈ rows, ∃ d ∈ DRIVER_ROSTER,
          lookup_driver (extractName cols cells).1 (extractName cols cells).2
              = some d ∧
            r.number = d.number ∧ r.team = d.team ∧ r.car = d.car) ∧
      ∀ r ∈ build_preseason_standings,
        ∃ d ∈ DRIVER_ROSTER,
          r.number = d.number ∧ r.team = d.team ∧ r.car = d.car := by
  constructor
  · intro cols rows r hr
    rcases mem_interpretLoop rows [] hr with h | ⟨cells, hcells, hrow⟩
    · simp at h
    · obtain ⟨d, hd, hfields⟩ := interpretRow_fields hrow
      exact ⟨cells, hcells, d, hd, hfields⟩
  · decide

/-- Witness for C9: the Verstappen record produced from `rowVer` draws
number, team and car from the single Verstappen roster entry. -/
theorem record_fields_from_one_entry_witness :
    recVer ∈ interpretLoop (detect_columns ["Pos", "Driver", "Pts"]) []
        [rowVer] ∧
      ∃ cells ∈ [rowVer], ∃ d ∈ DRIVER_ROSTER,
        lookup_driver
            (extractName (detect_columns ["Pos", "Driver", "Pts"]) cells).1
            (extractName (detect_columns ["Pos", "Driver", "Pts"]) cells).2
          = some d ∧
          recVer.number = d.number ∧ recVer.team = d.team ∧
            recVer.car = d.car :=
  ⟨by decide, record_fields_from_one_entry.1 _ _ _ (by decide)⟩

/-! ### C2: required columns and the exit contract -/

/-- C2: a page whose detected column map lacks any of the required
fields (`pos`, `driver`, `pts` — position, name, points) fails the
parse fatally: no records are produced, nothing is written and the
process exits 1; conversely every run on which `fetch_standings`
succeeds (the fallback path included) exits 0 after writing an output
list. -/
theorem required_columns_exit_contract :
    (∀ (t : HtmlTable) (trs : List (List String)) (hrow : List String)
        (body : List (List Cell)),
      t.thead = some trs → t.tbody = some body → trs.head? = some hrow →
      requiredPresent (detect_columns hrow) = false →
      fetch_standings (some ⟨some t⟩) = none ∧
        main (some ⟨some t⟩) = (1, none)) ∧
      ∀ resp : Option Page,
        (fetch_standings resp = none → main resp = (1, none)) ∧
          ∀ l, fetch_standings resp = some l →
            (main resp).1 = 0 ∧ ∃ out, (main resp).2 = some out := by
  constructor
  · intro t trs hrow body h1 h2 h3 hreq
    have hf : fetch_standings (some ⟨some t⟩) = none := by
      rw [fetch_standings_parsed h1 h2 h3, if_neg (by rw [hreq]; simp)]
    exact ⟨hf, by simp [main, hf]⟩
  · intro resp
    refine ⟨fun hf => by simp [main, hf], fun l hf => by simp [main, hf]⟩

/-- Witness for C2: a header without a driver column aborts with exit
code 1 and nothing written, while a parsed empty table exits 0 with
the fallback written. -/
theorem required_columns_exit_contract_witness :
    (fetch_standings (some ⟨some ⟨some [["Pos", "Pts"]],
          some [[Cell.mk "No results" []]]⟩⟩) = none ∧
        main (some ⟨some ⟨some [["Pos", "Pts"]],
          some [[Cell.mk "No results" []]]⟩⟩) = (1, none)) ∧
      ((main (some ⟨some ⟨some [["Pos", "Driver", "Pts"]], some []⟩⟩)).1 = 0 ∧
        ∃ out, (main (some ⟨some ⟨some [["Pos", "Driver", "Pts"]],
          some []⟩⟩)).2 = some out) :=
  ⟨required_columns_exit_contract.1 _ _ _ _ rfl rfl rfl (by decide),
    (required_columns_exit_contract.2 _).2 [] (by decide)⟩

/-! ### C5: column detection vs. the keyword-appearance reading -/

/-- The keyword set of each semantic field, in the code's priority
order (scraper.py lines 108–121). -/
def keywords : Field → List String
  | .pos => ["pos"]
  | .driver => ["driver"]
  | .nationality => ["nation"]
  | .team => ["team", "constructor"]
  | .pts => ["pts", "point"]
  | .wins => ["win"]
  | .poles => ["pole"]

/-- A field's keyword occurs in the given (already normalized) text. -/
def appearsIn (f : Field) (text : String) : Bool :=
  (keywords f).any (fun k => substrB k text)

/-- The claim's reading, stated from the spec: some keyword of field
`f` appears, case-insensitively, as a substring of the header cell's
text (the cell text as the code reads it: stripped and lower-cased;
the keywords contain no whitespace, so stripping edge whitespace does
not affect their occurrence). -/
def keywordAppears (f : Field) (cell : String) : Bool :=
  appearsIn f (normText cell)

/-- Reading a just-assigned column map. -/
lemma ColMap.get_set (m : ColMap) (f g : Field) (i : Nat) :
    (m.set f i).get g = if g = f then some i else m.get g := by
  cases f <;> cases g <;> simp [ColMap.set, ColMap.get]

/-- Presence of a field after running the detection loop from an
arbitrary starting map. -/
lemma fieldPresent_detectFrom (f : Field) :
    ∀ (hs : List String) (i : Nat) (m : ColMap),
      ((detectFrom i m hs).get f).isSome = true ↔
        ((m.get f).isSome = true ∨
          ∃ h ∈ hs, firstMatch (normText h) = some f) := by
  intro hs
  induction hs with
  | nil => intro i m; simp [detectFrom]
  | cons h t ih =>
    intro i m
    rw [detectFrom, ih]
    cases hfm : firstMatch (normText h) with
    | none =>
      simp only [applyCell, hfm, List.mem_cons]
      constructor
      · rintro (hm | hex)
        · exact Or.inl hm
        · exact Or.inr ⟨hex.choose, Or.inr hex.choose_spec.1, hex.choose_spec.2⟩
      · rintro (hm | ⟨c, hc | hc, hcf⟩)
        · exact Or.inl hm
        · rw [hc] at hcf
          rw [hcf] at hfm
          exact absurd hfm (by simp)
        · exact Or.inr ⟨c, hc, hcf⟩
    | some g =>
      simp only [applyCell, hfm, List.mem_cons]
      rw [ColMap.get_set]
      by_cases hfg : f = g
      · subst hfg
        simp only [if_pos rfl, Option.isSome_some]
        constructor
        · intro _
          exact Or.inr ⟨h, Or.inl rfl, hfm⟩
        · intro _
          exact Or.inl rfl
      · rw [if_neg hfg]
        constructor
        · rintro (hm | hex)
          · exact Or.inl hm
          · exact Or.inr ⟨hex.choose, Or.inr hex.choose_spec.1,
              hex.choose_spec.2⟩
        · rintro (hm | ⟨c, hc | hc, hcf⟩)
          · exact Or.inl hm
          · rw [hc] at hcf
            rw [hcf] at hfm
            exact absurd (Option.some.inj hfm) hfg
          · exact Or.inr ⟨c, hc, hcf⟩

/-- The field chosen by the keyword chain has an occurring keyword. -/
lemma firstMatch_appearsIn {t : String} {f : Field}
    (h : firstMatch t = some f) : appearsIn f t = true := by
  by_cases h1 : substrB "pos" t
  · rw [firstMatch, if_pos h1] at h
    obtain rfl := Option.some.inj h
    simp [appearsIn, keywords, h1]
  · rw [firstMatch, if_neg h1] at h
    by_cases h2 : substrB "driver" t
    · rw [if_pos h2] at h
      obtain rfl := Option.some.inj h
      simp [appearsIn, keywords, h2]
    · rw [if_neg h2] at h
      by_cases h3 : substrB "nation" t
      · rw [if_pos h3] at h
        obtain rfl := Option.some.inj h
        simp [appearsIn, keywords, h3]
      · rw [if_neg h3] at h
        by_cases h4 : (substrB "team" t || substrB "constructor" t) = true
        · rw [if_pos h4] at h
          obtain rfl := Option.some.inj h
          simp only [appearsIn, keywords, List.any_cons, List.any_nil,
            Bool.or_false]
          exact h4
        · rw [if_neg h4] at h
          by_cases h5 : (substrB "pts" t || substrB "point" t) = true
          · rw [if_pos h5] at h
            obtain rfl := Option.some.inj h
            simp only [appearsIn, keywords, List.any_cons, List.any_nil,
              Bool.or_false]
            exact h5
          · rw [if_neg h5] at h
            by_cases h6 : substrB "win" t
            · rw [if_pos h6] at h
              obtain rfl := Option.some.inj h
              simp [appearsIn, keywords, h6]
            · rw [if_neg h6] at h
              by_cases h7 : substrB "pole" t
              · rw [if_pos h7] at h
                obtain rfl := Option.some.inj h
                simp [appearsIn, keywords, h7]
              · rw [if_neg h7] at h
                exact absurd h (by simp)

/-- If some field's keyword occurs, the chain picks a field whose
keyword occurs. -/
lemma appearsIn_firstMatch {t : String} {f : Field}
    (ha : appearsIn f t = true) :
    ∃ g, firstMatch t = some g ∧ appearsIn g t = true := by
  by_cases h1 : substrB "pos" t
  · exact ⟨.pos, by rw [firstMatch, if_pos h1], by simp [appearsIn, keywords, h1]⟩
  · by_cases h2 : substrB "driver" t
    · exact ⟨.driver, by rw [firstMatch, if_neg h1, if_pos h2],
        by simp [appearsIn, keywords, h2]⟩
    · by_cases h3 : substrB "nation" t
      · exact ⟨.nationality, by rw [firstMatch, if_neg h1, if_neg h2, if_pos h3],
          by simp [appearsIn, keywords, h3]⟩
      · by_cases h4 : (substrB "team" t || substrB "constructor" t) = true
        · refine ⟨.team, by rw [firstMatch, if_neg h1, if_neg h2, if_neg h3,
            if_pos h4], ?_⟩
          simp only [appearsIn, keywords, List.any_cons, List.any_nil,
            Bool.or_false]
          exact h4
        · by_cases h5 : (substrB "pts" t || substrB "point" t) = true
          · refine ⟨.pts, by rw [firstMatch, if_neg h1, if_neg h2, if_neg h3,
              if_neg h4, if_pos h5], ?_⟩
            simp only [appearsIn, keywords, List.any_cons, List.any_nil,
              Bool.or_false]
            exact h5
          · by_cases h6 : substrB "win" t
            · exact ⟨.wins, by rw [firstMatch, if_neg h1, if_neg h2, if_neg h3,
                if_neg h4, if_neg h5, if_pos h6],
                by simp [appearsIn, keywords, h6]⟩
            · by_cases h7 : substrB "pole" t
              · exact ⟨.poles, by rw [firstMatch, if_neg h1, if_neg h2,
                  if_neg h3, if_neg h4, if_neg h5, if_neg h6, if_pos h7],
                  by simp [appearsIn, keywords, h7]⟩
              · exfalso
                cases f <;>
                  simp only [appearsIn, keywords, List.any_cons, List.any_nil,
                    Bool.or_false, Bool.or_eq_true] at ha
                · exact h1 ha
                · exact h2 ha
                · exact h3 ha
                · exact h4 (by rw [Bool.or_eq_true]; exact ha)
                · exact h5 (by rw [Bool.or_eq_true]; exact ha)
                · exact h6 ha
                · exact h7 ha

/-- The detection loop over an appended list runs the loop on the
second part from the intermediate state. -/
lemma detectFrom_append (hs hs' : List String) :
    ∀ (i : Nat) (m : ColMap),
      detectFrom i m (hs ++ hs') =
        detectFrom (i + hs.length) (detectFrom i m hs) hs' := by
  induction hs with
  | nil => intro i m; simp [detectFrom]
  | cons h t ih =>
    intro i m
    rw [List.cons_append, detectFrom, detectFrom, ih]
    congr 1
    simp only [List.length_cons]
    omega

/-- C5 (amended): the column mapper produces a map containing exactly
the semantic fields whose keywords appear (case-insensitively, as
substrings) in some header cell — regardless of column order —
provided every header cell matches the keywords of at most one field
(the code takes the first keyword match per cell, so a cell matching
several fields' keywords contributes only the highest-priority one);
and a cell matching no keyword is ignored without error. -/
theorem detect_columns_exact_fields :
    (∀ (hs : List String) (f : Field),
      (∀ cell ∈ hs, ∀ g g' : Field,
        keywordAppears g cell = true → keywordAppears g' cell = true →
          g = g') →
      (((detect_columns hs).get f).isSome = true ↔
        ∃ cell ∈ hs, keywordAppears f cell = true)) ∧
      ∀ (hs : List String) (cell : String),
        firstMatch (normText cell) = none →
        detect_columns (hs ++ [cell]) = detect_columns hs := by
  constructor
  · intro hs f huniq
    rw [detect_columns, fieldPresent_detectFrom]
    have hempty : ((({} : ColMap).get f).isSome = true) = False := by
      cases f <;> simp [ColMap.get]
    rw [hempty]
    simp only [false_or]
    constructor
    · rintro ⟨h, hmem, hfm⟩
      exact ⟨h, hmem, firstMatch_appearsIn hfm⟩
    · rintro ⟨cell, hmem, happ⟩
      obtain ⟨g, hg, hga⟩ := appearsIn_firstMatch happ
      exact ⟨cell, hmem, by rw [hg, huniq cell hmem g f hga happ]⟩
  · intro hs cell hnone
    rw [detect_columns, detect_columns, detectFrom_append, detectFrom,
      applyCell, hnone, detectFrom]

/-- Counterexample for C5 as stated: in the header `["driverpos"]` the
keyword of the `driver` field appears as a substring, yet the detected
map does not contain `driver` (the cell's first match is `pos`). -/
theorem detect_columns_counterexample :
    keywordAppears Field.driver "driverpos" = true ∧
      ((detect_columns ["driverpos"]).get Field.driver).isSome = false ∧
      (detect_columns ["driverpos"]).get Field.pos = some 0 := by
  decide

/-- Witness for C5 (amended) on a real header list, plus an ignored
keyword-free cell. -/
theorem detect_columns_exact_fields_witness :
    (((detect_columns ["Pos", "Driver", "Nationality", "Team", "Pts"]).get
          Field.pts).isSome = true ↔
        ∃ cell ∈ ["Pos", "Driver", "Nationality", "Team", "Pts"],
          keywordAppears Field.pts cell = true) ∧
      detect_columns (["Pos", "Driver"] ++ ["Rank"]) =
        detect_columns ["Pos", "Driver"] :=
  ⟨detect_columns_exact_fields.1 _ Field.pts (by decide),
    detect_columns_exact_fields.2 _ _ (by decide)⟩

end F1
